import Mathlib

/-!
Verification of the `compose-dump` CLI front end (`dump/cli/main.py`).

The source manipulates a Python `dict` of options produced by `argparse`.
We embed that dict as an association list from string keys to a sum type
`Val` of the Python values that actually occur (None, str, bool, lists and
tuples of strings, `pathlib.Path`, and the `action` function object), with
Python truthiness made explicit.  `os.getenv('COMPOSE_PROJECT_NAME')` is a
parameter `env : Option String`.  `pathlib.Path.name` / `.suffix` are
reimplemented following CPython's `pathlib` (drop empty and `.` components,
suffix is the part of the final component from its last dot, unless that
dot is the first or last character).

`directory_exists` comes from `dump.cli.utils`, which is not part of the
reviewed sources; it only receives immutable `Path` values and therefore
cannot change the options mapping, so for the value-level claims it is
embedded as a no-op.
-/

namespace ComposeDump

/-- A Python value as it occurs in the options mapping of `main.py`. -/
inductive Val where
  | vnone : Val
  | vstr : String → Val
  | vbool : Bool → Val
  | vlist : List String → Val
  | vtuple : List String → Val
  | vpath : String → Val
  | vfunc : Val
deriving DecidableEq, Repr

/-- Python truthiness of a `Val` (`bool(v)`); `Path` objects are always truthy. -/
def Val.truthy : Val → Bool
  | .vnone => false
  | .vstr s => s ≠ ""
  | .vbool b => b
  | .vlist xs => xs ≠ []
  | .vtuple xs => xs ≠ []
  | .vpath _ => true
  | .vfunc => true

/-- The options mapping: a Python dict with string keys. -/
abbrev Dict := List (String × Val)

/-- Lookup `d[k]`, defaulting to `None` (in the embedded runs every accessed key is present). -/
def Dict.get : Dict → String → Val
  | [], _ => .vnone
  | p :: d, k => if p.1 == k then p.2 else Dict.get d k

/-- Whether key `k` is present in the dict. -/
def Dict.hasKey : Dict → String → Bool
  | [], _ => false
  | p :: d, k => p.1 == k || Dict.hasKey d k

/-- Assignment `d[k] = v`: update in place if the key is present, else append
(Python dicts preserve insertion order). -/
def Dict.set : Dict → String → Val → Dict
  | [], k, v => [(k, v)]
  | p :: d, k, v => if p.1 == k then (k, v) :: d else p :: Dict.set d k v

/-- Deletion `del d[k]`. -/
def Dict.del : Dict → String → Dict
  | [], _ => []
  | p :: d, k => if p.1 == k then Dict.del d k else p :: Dict.del d k

/-- The string carried by a `str` or `Path` value (the argument of `Path(...)`). -/
def Val.asString : Val → String
  | .vstr s => s
  | .vpath s => s
  | _ => ""

/-- The elements of a `list`/`tuple` value. -/
def Val.asList : Val → List String
  | .vlist xs => xs
  | .vtuple xs => xs
  | _ => []

/-! ## pathlib semantics -/

/-- Split a list of characters on a separator character. -/
def splitOnChar (c : Char) : List Char → List (List Char)
  | [] => [[]]
  | x :: xs =>
    match splitOnChar c xs with
    | [] => if x = c then [[], []] else [[x]]
    | y :: ys => if x = c then [] :: y :: ys else (x :: y) :: ys

/-- The components of a POSIX path as `pathlib` keeps them: splitting on `/`
drops empty components (root, duplicate and trailing slashes) and `.`. -/
def pathParts (s : String) : List String :=
  List.filter (fun c => c != "" && c != ".")
    (List.map (fun cs => String.mk cs) (splitOnChar '/' s.toList))

/-- Embeds `pathlib.Path(s).name`: the final path component, `''` if there is none. -/
def pathName (s : String) : String :=
  match (pathParts s).getLast? with
  | some n => n
  | none => ""

/-- The characters of `pathlib.Path(s).suffix`: from the last dot of the final
component, empty unless that dot is an inner character of the name. -/
def suffixChars (s : String) : List Char :=
  let cs := (pathName s).toList
  match List.findIdx? (fun c => c = '.') cs.reverse with
  | none => []
  | some j =>
    let i := cs.length - 1 - j
    if 0 < i ∧ i < cs.length - 1 then cs.drop i else []

/-- Embeds `pathlib.Path(s).suffix`. -/
def pathSuffix (s : String) : String :=
  String.mk (suffixChars s)

/-! ## Constants of `dump/cli/main.py` -/

/-- Source constant `COMPRESSIONS = ('bz2', 'gz', 'tar', 'xz')`. -/
def COMPRESSIONS : List String := ["bz2", "gz", "tar", "xz"]

/-- Source constant `COMPRESSION_EXTENSIONS = tuple('.' + x for x in COMPRESSIONS)`. -/
def COMPRESSION_EXTENSIONS : List String :=
  List.map (fun x => "." ++ x) COMPRESSIONS

/-- Source constant `SCOPES = ('config', 'mounted', 'volumes')`. -/
def SCOPES : List String := ["config", "mounted", "volumes"]

/-! ## The parsed backup arguments

`add_backup_parser` registers exactly these options; `vars(args).copy()`
therefore yields a dict with exactly these keys.  `argparse` guarantees the
value shapes recorded in the field types (`store_true` flags are `bool`,
`--compression` is `None` or one of `COMPRESSIONS`, `--target`,
`--project-name` are `None` or a string, `--file` is `None` or a list,
`services` with `nargs='*'` is its default — the empty tuple — when no
service is named and otherwise a non-empty list, `--project-dir` is a
string, and `set_defaults` installs the `backup` function under `action`). -/

structure BackupArgs where
  config : Bool
  compression : Option String
  file : Option (List String)
  mounted : Bool
  no_pause : Bool
  project_dir : String
  project_name : Option String
  resolve_symlinks : Bool
  target : Option String
  verbose : Bool
  volumes : Bool
  services : List String
deriving DecidableEq, Repr

/-- Embed an optional string the way `argparse` stores it (`None` or `str`). -/
def optVal : Option String → Val
  | none => .vnone
  | some s => .vstr s

/-- Embed an optional list the way `argparse` stores it (`None` or `list`). -/
def optListVal : Option (List String) → Val
  | none => .vnone
  | some xs => .vlist xs

/-- The dict `vars(args).copy()` handed to `process_backup_options` by `backup`. -/
def mkOptionsDict (a : BackupArgs) : Dict :=
  [("action", .vfunc),
   ("config", .vbool a.config),
   ("compression", optVal a.compression),
   ("file", optListVal a.file),
   ("mounted", .vbool a.mounted),
   ("no_pause", .vbool a.no_pause),
   ("project_dir", .vstr a.project_dir),
   ("project_name", optVal a.project_name),
   ("resolve_symlinks", .vbool a.resolve_symlinks),
   ("target", optVal a.target),
   ("verbose", .vbool a.verbose),
   ("volumes", .vbool a.volumes),
   ("services", if a.services.isEmpty then .vtuple [] else .vlist a.services)]

/-! ## `process_backup_options` -/

/-- One iteration of `for scope in SCOPES:` — extend the `scopes` tuple when
the flag is truthy, then delete the flag's key. -/
def scopeStep (d : Dict) (scope : String) : Dict :=
  let d :=
    if (Dict.get d scope).truthy then
      Dict.set d "scopes" (.vtuple ((Dict.get d "scopes").asList ++ [scope]))
    else d
  Dict.del d scope

/-- Stage `del options['action']`. -/
def pboDelAction (options : Dict) : Dict :=
  Dict.del options "action"

/-- Stage `options['compose_files'] = options['file']; del options['file']`. -/
def pboComposeFiles (options : Dict) : Dict :=
  Dict.del (Dict.set options "compose_files" (Dict.get options "file")) "file"

/-- Stage `options['project_dir'] = Path(options['project_dir'])`;
`directory_exists(options['project_dir'])` cannot change the mapping. -/
def pboProjectDir (options : Dict) : Dict :=
  Dict.set options "project_dir" (.vpath (Dict.get options "project_dir").asString)

/-- Stage `options['project_name'] = options['project_name'] or
os.getenv('COMPOSE_PROJECT_NAME') or options['project_dir'].name`
(at this point `project_dir` already holds a `Path`). -/
def pboProjectName (env : Option String) (options : Dict) : Dict :=
  Dict.set options "project_name"
    (let given := Dict.get options "project_name"
     if given.truthy then given
     else
       let e := optVal env
       if e.truthy then e
       else .vstr (pathName (Dict.get options "project_dir").asString))

/-- Stage `options['scopes'] = ()`, the `for scope in SCOPES:` loop, and the
default to the full `SCOPES` tuple when no flag was set. -/
def pboScopes (options : Dict) : Dict :=
  let options := List.foldl scopeStep (Dict.set options "scopes" (.vtuple [])) SCOPES
  if (Dict.get options "scopes").truthy then options
  else Dict.set options "scopes" (.vtuple SCOPES)

/-- The `if options['target'] is not None: ... elif ...` block: wrap the
target in a `Path` and infer or default the compression. -/
def pboCompression (options : Dict) : Dict :=
  if Dict.get options "target" ≠ .vnone then
    let options := Dict.set options "target"
        (.vpath (Dict.get options "target").asString)
    if Dict.get options "compression" = .vnone ∧
        pathSuffix (Dict.get options "target").asString ∈ COMPRESSION_EXTENSIONS then
      Dict.set options "compression"
        (.vstr (String.mk (List.drop 1
          (suffixChars (Dict.get options "target").asString))))
    else options
  else if Dict.get options "compression" = .vnone then
    Dict.set options "compression" (.vstr "tar")
  else options

/-- Stage setting `options['target_type']` from the truthiness of `options['compression']`;
in the `folder` branch `directory_exists(options['target'])` cannot change
the mapping. -/
def pboTargetType (options : Dict) : Dict :=
  if (Dict.get options "compression").truthy then
    Dict.set options "target_type" (.vstr "archive")
  else
    Dict.set options "target_type" (.vstr "folder")

/-- Embeds `process_backup_options(options)` from `dump/cli/main.py`: the stages
above in source order, with `os.getenv('COMPOSE_PROJECT_NAME')` as the
parameter `env` (`none` when the variable is unset). -/
def process_backup_options (env : Option String) (options : Dict) : Dict :=
  pboTargetType (pboCompression (pboScopes
    (pboProjectName env (pboProjectDir (pboComposeFiles (pboDelAction options))))))

/-! ## `get_compose_context`

The compose library (`compose.config`) is external.  Its observable
behaviour at this call site is the outcome of `compose_config.load`:
either a validated configuration — a list of services, each a mapping
with a `name` — or a raised `ConfigurationError` carrying a message.
That outcome is the parameter `loadResult`.  A raised `SystemExit(1)`
together with the message passed to `log.error` is the `Except.error`
case of the result; the in-place mutation of `options` is returned
explicitly. -/

/-- A service of a loaded compose configuration (only its `name` is read here). -/
structure ComposeService where
  name : String
deriving DecidableEq, Repr

/-- The validated configuration returned by `compose_config.load`. -/
structure ComposeConfig where
  services : List ComposeService
deriving DecidableEq, Repr

/-- Outcome `raise SystemExit(code)` after `log.error(msg)`. -/
inductive CliExit where
  | systemExit (code : Nat) (loggedError : String)
deriving DecidableEq, Repr

/-- Embeds `get_compose_context(options)` from `dump/cli/main.py`.  `loadResult` is
the outcome of the delegated `compose_config.load(config_details)` call:
`.error msg` when it raises a `ConfigurationError` whose `msg` is `msg`.
The `Unknown services` message joins a Python `set`, whose iteration order
is unspecified; it is embedded here as the deduplicated unknown names in
request order. -/
def get_compose_context (loadResult : Except String ComposeConfig)
    (options : Dict) : Except CliExit (Dict × ComposeConfig) :=
  match loadResult with
  | .error msg => .error (.systemExit 1 msg)
  | .ok config =>
    let serviceNames := List.map (fun s => s.name) config.services
    let requested := (Dict.get options "services").asList
    let unknown := List.filter (fun s => !(List.contains serviceNames s)) requested
    if unknown ≠ [] then
      .error (.systemExit 1
        ("Unknown services: " ++ String.intercalate ", " unknown.dedup))
    else
      let options :=
        if !(Dict.get options "services").truthy then
          Dict.set options "services" (.vtuple serviceNames)
        else options
      .ok (options, config)

/-! ## The subcommand parsers

`parse_cli_args` builds a parser, creates a subparsers object and passes it
to `add_backup_parser` and `add_restore_parser`.  The state of the
subparsers object is embedded as the ordered list of registered subcommand
names together with the action bound to each by `set_defaults` (identified
by the action function's name). -/

/-- The state of the `argparse` subparsers object. -/
structure SubparsersState where
  names : List String
  actions : List (String × String)
deriving DecidableEq, Repr

/-- Embeds `add_backup_parser(subparsers)`: registers the `backup` subcommand and
binds the `backup` function as its `action` default. -/
def add_backup_parser_fn (s : SubparsersState) : SubparsersState :=
  { names := s.names ++ ["backup"], actions := s.actions ++ [("backup", "backup")] }

/-- Embeds `add_restore_parser(parser)` from `dump/cli/main.py`: its body is `pass`. -/
def add_restore_parser_fn (s : SubparsersState) : SubparsersState :=
  s

/-- The subparsers state after `parse_cli_args` has registered both
subcommands (starting from the fresh, empty subparsers object). -/
def cliSubparsers : SubparsersState :=
  add_restore_parser_fn (add_backup_parser_fn { names := [], actions := [] })

/-- The action that parsing `cmd` as the subcommand selects, if any. -/
def selectAction (s : SubparsersState) (cmd : String) : Option String :=
  Option.map (fun p => p.2) (List.find? (fun p => p.1 == cmd) s.actions)

/-! ## Closed form of `process_backup_options`

The straight-line dict program above is characterised by an explicit
association list; the characterisation theorem below is proved by case
analysis and is the workhorse for the claims. -/

/-- The scope flag of `a` named `s`. -/
def scopeFlag (a : BackupArgs) (s : String) : Bool :=
  if s == "config" then a.config
  else if s == "mounted" then a.mounted
  else if s == "volumes" then a.volumes
  else false

/-- The final `scopes` tuple: the flagged scopes in `SCOPES` order, or all of
`SCOPES` when no flag is set. -/
def resolvedScopes (a : BackupArgs) : List String :=
  let picked := List.filter (scopeFlag a) SCOPES
  if picked.isEmpty then SCOPES else picked

/-- The final `project_name` value: the given name, the environment
variable, or the project directory's final path component — first truthy
wins, as with Python's `or`. -/
def resolvedProjectName (env : Option String) (a : BackupArgs) : Val :=
  if (optVal a.project_name).truthy then optVal a.project_name
  else if (optVal env).truthy then optVal env
  else .vstr (pathName a.project_dir)

/-- The final `compression` value: an explicit choice survives; with a
target whose suffix is a compression extension it is inferred from the
suffix; with no target it defaults to `tar`; otherwise it stays `None`. -/
def resolvedCompression (a : BackupArgs) : Val :=
  match a.target, a.compression with
  | some t, none =>
    if pathSuffix t ∈ COMPRESSION_EXTENSIONS then
      .vstr (String.mk (List.drop 1 (suffixChars t)))
    else .vnone
  | some _, some c => .vstr c
  | none, none => .vstr "tar"
  | none, some c => .vstr c

/-- The result of `process_backup_options` as an explicit association list
(the key order is the one the dict operations of the source produce). -/
def normalizedOptions (env : Option String) (a : BackupArgs) : Dict :=
  [("compression", resolvedCompression a),
   ("no_pause", .vbool a.no_pause),
   ("project_dir", .vpath a.project_dir),
   ("project_name", resolvedProjectName env a),
   ("resolve_symlinks", .vbool a.resolve_symlinks),
   ("target", match a.target with | none => .vnone | some t => .vpath t),
   ("verbose", .vbool a.verbose),
   ("services", if a.services.isEmpty then .vtuple [] else .vlist a.services),
   ("compose_files", optListVal a.file),
   ("scopes", .vtuple (resolvedScopes a)),
   ("target_type",
     .vstr (if (resolvedCompression a).truthy then "archive" else "folder"))]

/-! ## Intermediate stage results

One explicit dict per stage of `process_backup_options`; the stage lemmas
below show each stage maps the previous literal to the next. -/

/-- The options dict after `del options['action']`. -/
def dictAfterDelAction (a : BackupArgs) : Dict :=
  [("config", .vbool a.config),
   ("compression", optVal a.compression),
   ("file", optListVal a.file),
   ("mounted", .vbool a.mounted),
   ("no_pause", .vbool a.no_pause),
   ("project_dir", .vstr a.project_dir),
   ("project_name", optVal a.project_name),
   ("resolve_symlinks", .vbool a.resolve_symlinks),
   ("target", optVal a.target),
   ("verbose", .vbool a.verbose),
   ("volumes", .vbool a.volumes),
   ("services", if a.services.isEmpty then .vtuple [] else .vlist a.services)]

/-- The options dict after the `compose_files` renaming. -/
def dictAfterComposeFiles (a : BackupArgs) : Dict :=
  [("config", .vbool a.config),
   ("compression", optVal a.compression),
   ("mounted", .vbool a.mounted),
   ("no_pause", .vbool a.no_pause),
   ("project_dir", .vstr a.project_dir),
   ("project_name", optVal a.project_name),
   ("resolve_symlinks", .vbool a.resolve_symlinks),
   ("target", optVal a.target),
   ("verbose", .vbool a.verbose),
   ("volumes", .vbool a.volumes),
   ("services", if a.services.isEmpty then .vtuple [] else .vlist a.services),
   ("compose_files", optListVal a.file)]

/-- The options dict after `options['project_dir'] = Path(...)`. -/
def dictAfterProjectDir (a : BackupArgs) : Dict :=
  [("config", .vbool a.config),
   ("compression", optVal a.compression),
   ("mounted", .vbool a.mounted),
   ("no_pause", .vbool a.no_pause),
   ("project_dir", .vpath a.project_dir),
   ("project_name", optVal a.project_name),
   ("resolve_symlinks", .vbool a.resolve_symlinks),
   ("target", optVal a.target),
   ("verbose", .vbool a.verbose),
   ("volumes", .vbool a.volumes),
   ("services", if a.services.isEmpty then .vtuple [] else .vlist a.services),
   ("compose_files", optListVal a.file)]

/-- The options dict after the project-name resolution. -/
def dictAfterProjectName (env : Option String) (a : BackupArgs) : Dict :=
  [("config", .vbool a.config),
   ("compression", optVal a.compression),
   ("mounted", .vbool a.mounted),
   ("no_pause", .vbool a.no_pause),
   ("project_dir", .vpath a.project_dir),
   ("project_name", resolvedProjectName env a),
   ("resolve_symlinks", .vbool a.resolve_symlinks),
   ("target", optVal a.target),
   ("verbose", .vbool a.verbose),
   ("volumes", .vbool a.volumes),
   ("services", if a.services.isEmpty then .vtuple [] else .vlist a.services),
   ("compose_files", optListVal a.file)]

/-- The options dict after the scopes block (the flag keys are deleted). -/
def dictAfterScopes (env : Option String) (a : BackupArgs) : Dict :=
  [("compression", optVal a.compression),
   ("no_pause", .vbool a.no_pause),
   ("project_dir", .vpath a.project_dir),
   ("project_name", resolvedProjectName env a),
   ("resolve_symlinks", .vbool a.resolve_symlinks),
   ("target", optVal a.target),
   ("verbose", .vbool a.verbose),
   ("services", if a.services.isEmpty then .vtuple [] else .vlist a.services),
   ("compose_files", optListVal a.file),
   ("scopes", .vtuple (resolvedScopes a))]

/-- The options dict after the target/compression block. -/
def dictAfterCompression (env : Option String) (a : BackupArgs) : Dict :=
  [("compression", resolvedCompression a),
   ("no_pause", .vbool a.no_pause),
   ("project_dir", .vpath a.project_dir),
   ("project_name", resolvedProjectName env a),
   ("resolve_symlinks", .vbool a.resolve_symlinks),
   ("target", match a.target with | none => .vnone | some t => .vpath t),
   ("verbose", .vbool a.verbose),
   ("services", if a.services.isEmpty then .vtuple [] else .vlist a.services),
   ("compose_files", optListVal a.file),
   ("scopes", .vtuple (resolvedScopes a))]

/-! ## Lemmas about the dict operations -/

theorem Dict.get_set_self (d : Dict) (k : String) (v : Val) :
    Dict.get (Dict.set d k v) k = v := by
  induction d with
  | nil => simp [Dict.set, Dict.get]
  | cons p d ih =>
    by_cases h : p.1 = k <;> simp [Dict.set, Dict.get, h, ih]

theorem Dict.get_set_ne (d : Dict) (k k' : String) (v : Val) (h : k' ≠ k) :
    Dict.get (Dict.set d k v) k' = Dict.get d k' := by
  induction d with
  | nil => simp [Dict.set, Dict.get, h, Ne.symm h]
  | cons p d ih =>
    by_cases hp : p.1 = k
    · have hpk : p.1 ≠ k' := by rw [hp]; exact Ne.symm h
      simp [Dict.set, Dict.get, hp, hpk, Ne.symm h]
    · simp [Dict.set, Dict.get, hp, ih]

theorem Dict.get_del_self (d : Dict) (k : String) :
    Dict.get (Dict.del d k) k = Val.vnone := by
  induction d with
  | nil => simp [Dict.del, Dict.get]
  | cons p d ih =>
    by_cases h : p.1 = k <;> simp [Dict.del, Dict.get, h, ih]

theorem Dict.get_del_ne (d : Dict) (k k' : String) (h : k' ≠ k) :
    Dict.get (Dict.del d k) k' = Dict.get d k' := by
  induction d with
  | nil => simp [Dict.del, Dict.get]
  | cons p d ih =>
    by_cases hp : p.1 = k
    · have hpk : p.1 ≠ k' := by rw [hp]; exact Ne.symm h
      simp [Dict.del, Dict.get, hp, hpk, Ne.symm h, ih]
    · simp [Dict.del, Dict.get, hp, ih]

theorem Dict.hasKey_set_self (d : Dict) (k : String) (v : Val) :
    Dict.hasKey (Dict.set d k v) k = true := by
  induction d with
  | nil => simp [Dict.set, Dict.hasKey]
  | cons p d ih =>
    by_cases h : p.1 = k <;> simp [Dict.set, Dict.hasKey, h, ih]

theorem Dict.hasKey_set_ne (d : Dict) (k k' : String) (v : Val) (h : k' ≠ k) :
    Dict.hasKey (Dict.set d k v) k' = Dict.hasKey d k' := by
  induction d with
  | nil => simp [Dict.set, Dict.hasKey, Ne.symm h]
  | cons p d ih =>
    by_cases hp : p.1 = k
    · simp [Dict.set, Dict.hasKey, hp, Ne.symm h]
    · simp [Dict.set, Dict.hasKey, hp, ih]

theorem Dict.hasKey_del_self (d : Dict) (k : String) :
    Dict.hasKey (Dict.del d k) k = false := by
  induction d with
  | nil => simp [Dict.del, Dict.hasKey]
  | cons p d ih =>
    by_cases h : p.1 = k <;> simp [Dict.del, Dict.hasKey, h, ih]

theorem Dict.hasKey_del_ne (d : Dict) (k k' : String) (h : k' ≠ k) :
    Dict.hasKey (Dict.del d k) k' = Dict.hasKey d k' := by
  induction d with
  | nil => simp [Dict.del, Dict.hasKey]
  | cons p d ih =>
    by_cases hp : p.1 = k
    · have hpk : p.1 ≠ k' := by rw [hp]; exact Ne.symm h
      simp [Dict.del, Dict.hasKey, hp, hpk, Ne.symm h, ih]
    · simp [Dict.del, Dict.hasKey, hp, ih]
/-! ## Stagewise evaluation of `process_backup_options` -/

theorem pboDelAction_eq (a : BackupArgs) :
    pboDelAction (mkOptionsDict a) = dictAfterDelAction a := by
  simp [pboDelAction, mkOptionsDict, dictAfterDelAction, Dict.del]

theorem pboComposeFiles_eq (a : BackupArgs) :
    pboComposeFiles (dictAfterDelAction a) = dictAfterComposeFiles a := by
  simp [pboComposeFiles, dictAfterDelAction, dictAfterComposeFiles,
    Dict.del, Dict.set, Dict.get]

theorem pboProjectDir_eq (a : BackupArgs) :
    pboProjectDir (dictAfterComposeFiles a) = dictAfterProjectDir a := by
  simp [pboProjectDir, dictAfterComposeFiles, dictAfterProjectDir,
    Dict.set, Dict.get, Val.asString]

theorem pboProjectName_eq (env : Option String) (a : BackupArgs) :
    pboProjectName env (dictAfterProjectDir a) = dictAfterProjectName env a := by
  simp [pboProjectName, dictAfterProjectDir, dictAfterProjectName,
    Dict.set, Dict.get, Val.asString, resolvedProjectName]

theorem pboScopes_eq (env : Option String) (a : BackupArgs) :
    pboScopes (dictAfterProjectName env a) = dictAfterScopes env a := by
  obtain ⟨cfg, comp, fl, mnt, np, pd, pn, rs, tgt, vb, vols, svcs⟩ := a
  cases cfg <;> cases mnt <;> cases vols <;>
    simp [pboScopes, scopeStep, SCOPES, dictAfterProjectName, dictAfterScopes,
      resolvedScopes, scopeFlag, Dict.set, Dict.get, Dict.del,
      Val.truthy, Val.asList]
theorem pboCompression_eq (env : Option String) (a : BackupArgs) :
    pboCompression (dictAfterScopes env a) = dictAfterCompression env a := by
  obtain ⟨cfg, comp, fl, mnt, np, pd, pn, rs, tgt, vb, vols, svcs⟩ := a
  cases tgt with
  | none =>
    cases comp <;>
      simp [pboCompression, dictAfterScopes, dictAfterCompression,
        resolvedCompression, Dict.set, Dict.get, Val.asString, optVal]
  | some t =>
    cases comp with
    | some c =>
      simp [pboCompression, dictAfterScopes, dictAfterCompression,
        resolvedCompression, Dict.set, Dict.get, Val.asString, optVal]
    | none =>
      by_cases h : pathSuffix t ∈ COMPRESSION_EXTENSIONS <;>
        simp [pboCompression, dictAfterScopes, dictAfterCompression,
          resolvedCompression, Dict.set, Dict.get, Val.asString, optVal, h]

theorem pboTargetType_eq (env : Option String) (a : BackupArgs) :
    pboTargetType (dictAfterCompression env a) = normalizedOptions env a := by
  cases hc : (resolvedCompression a).truthy <;>
    simp [pboTargetType, dictAfterCompression, normalizedOptions,
      Dict.set, Dict.get, hc]

theorem process_backup_options_eq (env : Option String) (a : BackupArgs) :
    process_backup_options env (mkOptionsDict a) = normalizedOptions env a := by
  rw [process_backup_options, pboDelAction_eq, pboComposeFiles_eq,
    pboProjectDir_eq, pboProjectName_eq, pboScopes_eq, pboCompression_eq,
    pboTargetType_eq]
/-! ## The claims -/

/-- C1: if none of the three scope flags is set, `options['scopes']` is the
full `SCOPES` tuple; otherwise it holds exactly the scope names whose flags
were set, in `SCOPES` order. -/
theorem backup_scopes_resolution (env : Option String) (a : BackupArgs) :
    Dict.get (process_backup_options env (mkOptionsDict a)) "scopes" =
      .vtuple (if a.config || a.mounted || a.volumes
               then List.filter (scopeFlag a) SCOPES else SCOPES) := by
  rw [process_backup_options_eq]
  obtain ⟨cfg, comp, fl, mnt, np, pd, pn, rs, tgt, vb, vols, svcs⟩ := a
  cases cfg <;> cases mnt <;> cases vols <;>
    simp [normalizedOptions, Dict.get, resolvedScopes, scopeFlag, SCOPES]

/-- C9: the returned mapping drops `action`, `file` and the three scope
flag keys and always carries `compose_files`, `scopes`, `project_name`,
`project_dir`, `compression`, `target` and `target_type`. -/
theorem canonical_option_keys (env : Option String) (a : BackupArgs) :
    Dict.hasKey (process_backup_options env (mkOptionsDict a)) "action" = false ∧
    Dict.hasKey (process_backup_options env (mkOptionsDict a)) "file" = false ∧
    Dict.hasKey (process_backup_options env (mkOptionsDict a)) "config" = false ∧
    Dict.hasKey (process_backup_options env (mkOptionsDict a)) "mounted" = false ∧
    Dict.hasKey (process_backup_options env (mkOptionsDict a)) "volumes" = false ∧
    Dict.hasKey (process_backup_options env (mkOptionsDict a)) "compose_files" = true ∧
    Dict.hasKey (process_backup_options env (mkOptionsDict a)) "scopes" = true ∧
    Dict.hasKey (process_backup_options env (mkOptionsDict a)) "project_name" = true ∧
    Dict.hasKey (process_backup_options env (mkOptionsDict a)) "project_dir" = true ∧
    Dict.hasKey (process_backup_options env (mkOptionsDict a)) "compression" = true ∧
    Dict.hasKey (process_backup_options env (mkOptionsDict a)) "target" = true ∧
    Dict.hasKey (process_backup_options env (mkOptionsDict a)) "target_type" = true := by
  rw [process_backup_options_eq]
  simp [normalizedOptions, Dict.hasKey]

/-- C10: an explicitly given compression choice is returned unchanged,
whatever the target's suffix. -/
theorem explicit_compression_preserved (env : Option String) (a : BackupArgs)
    (c : String) (h : a.compression = some c) :
    Dict.get (process_backup_options env (mkOptionsDict a)) "compression" =
      .vstr c := by
  rw [process_backup_options_eq]
  cases htgt : a.target <;>
    simp [normalizedOptions, Dict.get, resolvedCompression, h, htgt]

/-- Witness for C10 at a concrete input: `-x bz2 -t out.gz` keeps `bz2`. -/
theorem explicit_compression_preserved_witness :
    Dict.get (process_backup_options none (mkOptionsDict
      ⟨false, some "bz2", none, false, false, "/p", none, false,
       some "out.gz", false, false, []⟩)) "compression" = .vstr "bz2" :=
  explicit_compression_preserved none
    ⟨false, some "bz2", none, false, false, "/p", none, false,
     some "out.gz", false, false, []⟩ "bz2" rfl
/-- C2: with a target, no explicit compression, and a target suffix that is
one of the compression extensions, the compression is inferred as the
suffix without its leading dot. -/
theorem compression_inferred_from_suffix (env : Option String) (a : BackupArgs)
    (t c : String) (ht : a.target = some t) (hc : a.compression = none)
    (hmem : c ∈ COMPRESSIONS) (hsuf : pathSuffix t = "." ++ c) :
    Dict.get (process_backup_options env (mkOptionsDict a)) "compression" =
      .vstr c := by
  rw [process_backup_options_eq]
  have hmem' : pathSuffix t ∈ COMPRESSION_EXTENSIONS := by
    rw [hsuf]
    exact List.mem_map_of_mem (fun x => "." ++ x) hmem
  have hchars : suffixChars t = '.' :: c.data := by
    have : String.mk (suffixChars t) = String.mk ('.' :: c.data) := by
      rw [← pathSuffix, hsuf]
      apply String.ext
      simp [String.data_append]
    exact congrArg String.data this
  simp [normalizedOptions, Dict.get, resolvedCompression, ht, hc, hmem', hchars]

/-- Witness for C2 at a concrete input: target `backup.tar.gz` yields
compression `gz`. -/
theorem compression_inferred_from_suffix_witness :
    Dict.get (process_backup_options none (mkOptionsDict
      ⟨false, none, none, false, false, "/p", none, false,
       some "backup.tar.gz", false, false, []⟩)) "compression" = .vstr "gz" :=
  compression_inferred_from_suffix none
    ⟨false, none, none, false, false, "/p", none, false,
     some "backup.tar.gz", false, false, []⟩ "backup.tar.gz" "gz" rfl rfl
    (by decide) (by decide)
/-- C3: with neither target nor compression given the compression defaults
to `tar`, and `target_type` is `archive` exactly when the final compression
value is truthy, `folder` otherwise. -/
theorem compression_default_and_target_type (env : Option String) (a : BackupArgs) :
    (a.target = none ∧ a.compression = none →
      Dict.get (process_backup_options env (mkOptionsDict a)) "compression" =
        .vstr "tar") ∧
    Dict.get (process_backup_options env (mkOptionsDict a)) "target_type" =
      .vstr (if (Dict.get (process_backup_options env (mkOptionsDict a))
                  "compression").truthy
             then "archive" else "folder") := by
  rw [process_backup_options_eq]
  constructor
  · rintro ⟨h1, h2⟩
    simp [normalizedOptions, Dict.get, resolvedCompression, h1, h2]
  · simp [normalizedOptions, Dict.get]

/-- Witness for C3 at a concrete input: no target and no compression gives
`tar` and an `archive` target type. -/
theorem compression_default_and_target_type_witness :
    Dict.get (process_backup_options none (mkOptionsDict
      ⟨true, none, none, false, false, "/w", none, false, none,
       false, false, []⟩)) "compression" = .vstr "tar" ∧
    Dict.get (process_backup_options none (mkOptionsDict
      ⟨true, none, none, false, false, "/w", none, false, none,
       false, false, []⟩)) "target_type" = .vstr "archive" := by
  refine ⟨(compression_default_and_target_type none _).1 ⟨rfl, rfl⟩, ?_⟩
  have h := (compression_default_and_target_type none
    ⟨true, none, none, false, false, "/w", none, false, none,
     false, false, []⟩).2
  rw [h]
  decide

/-- C5: a `ConfigurationError` from the delegated configuration load is
logged and turned into `SystemExit(1)`; the error itself is not propagated. -/
theorem configuration_error_exit (options : Dict) (msg : String) :
    get_compose_context (.error msg) options =
      .error (.systemExit 1 msg) := rfl

/-- C4: a requested service name that is not among the loaded
configuration's service names makes `get_compose_context` log an error and
raise `SystemExit(1)`. -/
theorem unknown_services_exit (options : Dict) (config : ComposeConfig)
    (s : String) (hreq : s ∈ (Dict.get options "services").asList)
    (hunk : s ∉ List.map (fun sv => sv.name) config.services) :
    ∃ msg, get_compose_context (.ok config) options =
      .error (.systemExit 1 msg) := by
  have hmem : s ∈ List.filter
      (fun x => !(List.contains (List.map (fun sv => sv.name) config.services) x))
      (Dict.get options "services").asList := by
    rw [List.mem_filter]
    exact ⟨hreq, by simpa using hunk⟩
  have hne : List.filter
      (fun x => !(List.contains (List.map (fun sv => sv.name) config.services) x))
      (Dict.get options "services").asList ≠ [] :=
    List.ne_nil_of_mem hmem
  refine ⟨"Unknown services: " ++ String.intercalate ", "
    (List.filter
      (fun x => !(List.contains (List.map (fun sv => sv.name) config.services) x))
      (Dict.get options "services").asList).dedup, ?_⟩
  simp only [get_compose_context]
  rw [if_pos hne]

/-- Witness for C4 at a concrete input: requesting `ghost` against a
configuration whose only service is `web` exits with status 1. -/
theorem unknown_services_exit_witness :
    ∃ msg, get_compose_context (.ok ⟨[⟨"web"⟩]⟩)
        [("services", Val.vlist ["ghost"])] =
      .error (.systemExit 1 msg) :=
  unknown_services_exit [("services", Val.vlist ["ghost"])] ⟨[⟨"web"⟩]⟩
    "ghost" (by decide) (by decide)
/-- C8: after a successful load, an empty `services` entry is replaced by
the tuple of all configured service names in configuration order, and a
non-empty request whose names are all known is left unchanged. -/
theorem services_default_to_all (options : Dict) (config : ComposeConfig) :
    ((Dict.get options "services" = .vtuple [] ∨
      Dict.get options "services" = .vlist []) →
      get_compose_context (.ok config) options =
        .ok (Dict.set options "services"
          (.vtuple (List.map (fun sv => sv.name) config.services)), config)) ∧
    (∀ reqs, Dict.get options "services" = .vlist reqs → reqs ≠ [] →
      (∀ s ∈ reqs, s ∈ List.map (fun sv => sv.name) config.services) →
      get_compose_context (.ok config) options = .ok (options, config)) := by
  constructor
  · intro h
    have hlist : (Dict.get options "services").asList = [] := by
      rcases h with h | h <;> simp [h, Val.asList]
    have htr : (Dict.get options "services").truthy = false := by
      rcases h with h | h <;> simp [h, Val.truthy]
    simp [get_compose_context, hlist, htr]
  · intro reqs hl hne hall
    have hfil : List.filter
        (fun x => !(List.contains (List.map (fun sv => sv.name) config.services) x))
        (Dict.get options "services").asList = [] := by
      rw [List.filter_eq_nil_iff]
      intro x hx
      rw [hl] at hx
      simp only [Val.asList] at hx
      simpa using hall x hx
    have htr : (Dict.get options "services").truthy = true := by
      simp [hl, Val.truthy, hne]
    simp only [get_compose_context]
    rw [if_neg (fun hcon => hcon hfil)]
    simp [htr]

/-- Witness for C8 at concrete inputs: an empty request is filled with both
configured services in order, and the known request `["b"]` is unchanged. -/
theorem services_default_to_all_witness :
    get_compose_context (.ok ⟨[⟨"a"⟩, ⟨"b"⟩]⟩) [("services", Val.vtuple [])] =
      .ok ([("services", Val.vtuple ["a", "b"])], ⟨[⟨"a"⟩, ⟨"b"⟩]⟩) ∧
    get_compose_context (.ok ⟨[⟨"a"⟩, ⟨"b"⟩]⟩) [("services", Val.vlist ["b"])] =
      .ok ([("services", Val.vlist ["b"])], ⟨[⟨"a"⟩, ⟨"b"⟩]⟩) :=
  ⟨(services_default_to_all [("services", Val.vtuple [])] ⟨[⟨"a"⟩, ⟨"b"⟩]⟩).1
      (Or.inl rfl),
   (services_default_to_all [("services", Val.vlist ["b"])] ⟨[⟨"a"⟩, ⟨"b"⟩]⟩).2
      ["b"] rfl (by decide) (by decide)⟩

/-- C6 fails as stated: with `--project-name ''` the explicitly given (but
empty) name is not used; the environment value wins. -/
theorem project_name_empty_counterexample :
    Dict.get (process_backup_options (some "fromenv") (mkOptionsDict
      ⟨false, none, none, false, false, "/p/dir", some "", false, none,
       false, false, []⟩)) "project_name" = .vstr "fromenv" ∧
    Val.vstr "fromenv" ≠ Val.vstr "" := ⟨by decide, by decide⟩

/-- C6 (amended): `project_name` is the given name when given and
non-empty, else the environment variable's value when set and non-empty,
else the final path component of the project directory. -/
theorem project_name_resolution_amended (env : Option String) (a : BackupArgs) :
    (∀ s, a.project_name = some s → s ≠ "" →
      Dict.get (process_backup_options env (mkOptionsDict a)) "project_name" =
        .vstr s) ∧
    (∀ e, (a.project_name = none ∨ a.project_name = some "") →
      env = some e → e ≠ "" →
      Dict.get (process_backup_options env (mkOptionsDict a)) "project_name" =
        .vstr e) ∧
    ((a.project_name = none ∨ a.project_name = some "") →
      (env = none ∨ env = some "") →
      Dict.get (process_backup_options env (mkOptionsDict a)) "project_name" =
        .vstr (pathName a.project_dir)) := by
  rw [process_backup_options_eq]
  refine ⟨?_, ?_, ?_⟩
  · intro s hs hne
    simp [normalizedOptions, Dict.get, resolvedProjectName, optVal, Val.truthy,
      hs, hne]
  · intro e hpn he hne
    rcases hpn with hpn | hpn <;>
      simp [normalizedOptions, Dict.get, resolvedProjectName, optVal, Val.truthy,
        hpn, he, hne]
  · intro hpn henv
    rcases hpn with hpn | hpn <;> rcases henv with henv | henv <;>
      simp [normalizedOptions, Dict.get, resolvedProjectName, optVal, Val.truthy,
        hpn, henv]

/-- Witness for the amended C6 at concrete inputs: each of the three
fallback levels produces the expected name. -/
theorem project_name_resolution_amended_witness :
    Dict.get (process_backup_options none (mkOptionsDict
      ⟨false, none, none, false, false, "/x/dir", some "given", false, none,
       false, false, []⟩)) "project_name" = .vstr "given" ∧
    Dict.get (process_backup_options (some "envn") (mkOptionsDict
      ⟨false, none, none, false, false, "/x/dir", none, false, none,
       false, false, []⟩)) "project_name" = .vstr "envn" ∧
    Dict.get (process_backup_options none (mkOptionsDict
      ⟨false, none, none, false, false, "/x/dir", some "", false, none,
       false, false, []⟩)) "project_name" = .vstr "dir" := by
  refine ⟨(project_name_resolution_amended none _).1 "given" rfl (by decide),
    (project_name_resolution_amended (some "envn") _).2.1 "envn" (Or.inl rfl)
      rfl (by decide), ?_⟩
  have h := (project_name_resolution_amended none
    ⟨false, none, none, false, false, "/x/dir", some "", false, none,
     false, false, []⟩).2.2 (Or.inr rfl) (Or.inl rfl)
  rw [h]
  decide

/-- C7: `add_restore_parser` leaves the subparsers object untouched, so no
argument vector can select a `restore` action. -/
theorem restore_subcommand_stub (s : SubparsersState) :
    add_restore_parser_fn s = s ∧
    (∀ cmd, selectAction cliSubparsers cmd ≠ some "restore") := by
  refine ⟨rfl, ?_⟩
  intro cmd
  by_cases h : ("backup" == cmd) <;>
    simp [selectAction, cliSubparsers, add_backup_parser_fn,
      add_restore_parser_fn, h]

/-- Witness for C7: registering on the actual subparsers state is the
identity, and the `restore` command selects no restore action. -/
theorem restore_subcommand_stub_witness :
    add_restore_parser_fn cliSubparsers = cliSubparsers ∧
    selectAction cliSubparsers "restore" ≠ some "restore" :=
  ⟨(restore_subcommand_stub cliSubparsers).1,
   (restore_subcommand_stub cliSubparsers).2 "restore"⟩
end ComposeDump
